import Mathlib

/-!
Verification of the regex-based Python-2→3 converter
(`runtime-rs/sikulid_api/py2to3.py`, class `Py2To3Converter`).

The converter applies an ordered list of regex substitutions to the source
text and finally strips `from __future__ import ...` lines.  We embed each
compiled pattern as an executable matcher over `List Char` that reproduces
Python `re.sub` semantics for that concrete pattern (leftmost scan,
greedy quantifiers with the backtracking behaviour those patterns exhibit,
`MULTILINE` anchors, word boundaries), together with a generic scan driver.
All inputs of interest are ASCII, where Python's `\s`, `\w`, `\d` coincide
with the character classes below.
-/

namespace Py2To3

/-- Python `\s` on ASCII: space, tab, newline, carriage return, vertical
tab, form feed. -/
def pySpace (c : Char) : Bool :=
  c = ' ' || c = '\t' || c = '\n' || c = '\r' ||
  c = Char.ofNat 11 || c = Char.ofNat 12

/-- Python `\w` on ASCII: letters, digits, underscore. -/
def wordChar (c : Char) : Bool :=
  c.isAlphanum || c = '_'

/-- `bolv prev` holds when the scan position is at the beginning of the
string or right after a newline — where `re.MULTILINE`'s `^` matches. -/
def bolv : Option Char → Bool
  | none => true
  | some c => c = '\n'

/-- Word boundary `\b` before a word character: the previous character is
absent or a non-word character. -/
def wordBoundL : Option Char → Bool
  | none => true
  | some c => !(wordChar c)

/-- Match a literal, returning the remainder on success. -/
def expect : List Char → List Char → Option (List Char)
  | [], s => some s
  | _ :: _, [] => none
  | c :: cs, d :: ds => if c = d then expect cs ds else none

/-- A matcher receives the character preceding the scan position (none at
the start of the string) and the remaining text; on success it returns the
number of characters the match consumes and the literal replacement text. -/
def Matcher : Type := Option Char → List Char → Option (Nat × List Char)

/-- The scan driver of `re.sub`: try the matcher at each position from the
left; on a match emit the replacement and continue after the match,
otherwise copy one character.  Fuel is the length of the list; every match
consumes at least one character so the fuel suffices. -/
def subAux (m : Matcher) : Nat → Option Char → List Char → List Char
  | _, _, [] => []
  | 0, _, s => s
  | Nat.succ fl, prev, c :: rest =>
    match m prev (c :: rest) with
    | some (n, r) =>
      if n = 0 then c :: subAux m fl (some c) rest
      else r ++ subAux m fl (((c :: rest).take n).getLast?) (List.drop n (c :: rest))
    | none => c :: subAux m fl (some c) rest

/-- One full substitution pass (`pattern.sub(replacement, s)`). -/
def runSub (m : Matcher) (s : List Char) : List Char :=
  subAux m s.length none s

/-- `noMatch m prev s` asserts the matcher fails at every scan position. -/
def noMatch (m : Matcher) : Option Char → List Char → Bool
  | _, [] => true
  | prev, c :: rest => (m prev (c :: rest)).isNone && noMatch m (some c) rest

/-- Python `str.strip()` on ASCII whitespace. -/
def pyStrip (l : List Char) : List Char :=
  ((l.dropWhile pySpace).reverse.dropWhile pySpace).reverse

/-- `re.match(r'>>\s*(\w+)\s*,\s*(.+)', content)` used by
`_convert_print` for the `print >> stream, rest` redirect form; returns
the two groups (stream, rest). -/
def printRedirect (content : List Char) : Option (List Char × List Char) :=
  match expect (">>".data) content with
  | none => none
  | some r1 =>
    let r2 := r1.dropWhile pySpace
    let f := r2.takeWhile wordChar
    if f.isEmpty then none
    else
      match (r2.dropWhile wordChar).dropWhile pySpace with
      | ',' :: r5 =>
        let rest := r5.dropWhile pySpace
        if rest.isEmpty then
          match (r5.takeWhile pySpace).reverse.dropWhile (fun c => c = '\n') with
          | [] => none
          | c :: _ => some (f, [c])
        else some (f, rest.takeWhile (fun c => !(c = '\n')))
      | _ => none

/-- `Py2To3Converter._convert_print`: build the replacement for a matched
`print` statement from the indent (group 1) and argument text (group 2). -/
def convertPrint (indent content0 : List Char) : List Char :=
  let content1 := pyStrip content0
  let hasComma : Bool := content1.getLast? = some ','
  let content := if hasComma then pyStrip content1.dropLast else content1
  match printRedirect content with
  | some fa =>
    indent ++ "print(".data ++ fa.2 ++ ", file=".data ++ fa.1 ++
      (if hasComma then ", end=\" \")".data else ")".data)
  | none =>
    indent ++ "print(".data ++ content ++
      (if hasComma then ", end=\" \")".data else ")".data)

/-- Pattern `^(\s*)print\s*$` (MULTILINE) → `\1print()`.
The trailing `\s*$` is greedy: it runs to the end of the string if
possible, otherwise it backtracks to stop just before the last newline
inside the whitespace run. -/
def m_printEmpty : Matcher := fun prev s =>
  if bolv prev then
    let indent := s.takeWhile pySpace
    match expect ("print".data) (s.dropWhile pySpace) with
    | none => none
    | some r2 =>
      let run := r2.takeWhile pySpace
      let kOpt : Option Nat :=
        if (r2.dropWhile pySpace).isEmpty then some run.length
        else
          match run.reverse.dropWhile (fun c => !(c = '\n')) with
          | [] => none
          | _ :: t => some t.length
      match kOpt with
      | none => none
      | some k => some (indent.length + 5 + k, indent ++ "print()".data)
  else none

/-- For `\s+(?!\()(.+)$` after `print`: the largest backtracking stop
`k ≥ 1` strictly inside the whitespace run such that the character at the
stop is not a newline (so `.` can match there). -/
def backK (run : List Char) : Option Nat :=
  match (run.reverse.dropWhile (fun c => c = '\n')).length with
  | 0 => none
  | 1 => none
  | Nat.succ j => some j

/-- Pattern `^(\s*)print\s+(?!\()(.+)$` (MULTILINE) with the callable
replacement `_convert_print`.  The greedy `\s+` first tries to consume the
whole whitespace run after `print`; the lookahead `(?!\()` and the
requirement that `.+` match at least one non-newline character can force
it to backtrack into the run. -/
def m_printArgs : Matcher := fun prev s =>
  if bolv prev then
    let indent := s.takeWhile pySpace
    match expect ("print".data) (s.dropWhile pySpace) with
    | none => none
    | some r2 =>
      let run := r2.takeWhile pySpace
      let tail := r2.dropWhile pySpace
      if run.isEmpty then none
      else
        let kOpt : Option Nat :=
          match tail.head? with
          | some c => if c = '(' then backK run else some run.length
          | none => backK run
        match kOpt with
        | none => none
        | some k =>
          let content := (run.drop k ++ tail).takeWhile (fun c => !(c = '\n'))
          some (indent.length + 5 + k + content.length, convertPrint indent content)
  else none

/-- Shared shape of `\b<name>\s*\(` → `<repl>` (the `xrange`, `raw_input`
and `unicode` rules). -/
def m_callRename (lit repl : List Char) : Matcher := fun prev s =>
  if wordBoundL prev then
    match expect lit s with
    | none => none
    | some r1 =>
      let ws := r1.takeWhile pySpace
      match r1.dropWhile pySpace with
      | '(' :: _ => some (lit.length + ws.length + 1, repl)
      | _ => none
  else none

def m_xrange : Matcher := m_callRename ("xrange".data) ("range(".data)

def m_raw_input : Matcher := m_callRename ("raw_input".data) ("input(".data)

def m_unicode : Matcher := m_callRename ("unicode".data) ("str(".data)

/-- `(?:\.\w+)*` after the first identifier of the exception expression:
consume as many `.word` groups as possible, returning the consumed text
and the remainder.  Fuel-driven; called with the remainder's length. -/
def dottedAux : Nat → List Char → List Char × List Char
  | _, [] => ([], [])
  | 0, l => ([], l)
  | Nat.succ fl, l =>
    match l with
    | '.' :: r =>
      let w := r.takeWhile wordChar
      if w.isEmpty then ([], l)
      else
        let p := dottedAux fl (r.dropWhile wordChar)
        ('.' :: (w ++ p.1), p.2)
    | _ => ([], l)

/-- Pattern `except\s+(\w+(?:\.\w+)*)\s*,\s*(\w+)\s*:` →
`except \1 as \2:`. -/
def m_except : Matcher := fun _ s =>
  match expect ("except".data) s with
  | none => none
  | some r1 =>
    let ws1 := r1.takeWhile pySpace
    if ws1.isEmpty then none
    else
      let r2 := r1.dropWhile pySpace
      let w1 := r2.takeWhile wordChar
      if w1.isEmpty then none
      else
        let r3 := r2.dropWhile wordChar
        let pr := dottedAux r3.length r3
        let exc := w1 ++ pr.1
        let ws2 := pr.2.takeWhile pySpace
        match pr.2.dropWhile pySpace with
        | ',' :: r5 =>
          let ws3 := r5.takeWhile pySpace
          let r6 := r5.dropWhile pySpace
          let w2 := r6.takeWhile wordChar
          if w2.isEmpty then none
          else
            let r7 := r6.dropWhile wordChar
            let ws4 := r7.takeWhile pySpace
            match r7.dropWhile pySpace with
            | ':' :: _ =>
              some (6 + ws1.length + exc.length + ws2.length + 1 +
                      ws3.length + w2.length + ws4.length + 1,
                    "except ".data ++ exc ++ " as ".data ++ w2 ++ [':'])
            | _ => none
        | _ => none

/-- Pattern `\b(\d+)[Ll]\b` → `\1` (strip a long-integer suffix). -/
def m_long : Matcher := fun prev s =>
  if wordBoundL prev then
    let ds := s.takeWhile Char.isDigit
    if ds.isEmpty then none
    else
      match s.dropWhile Char.isDigit with
      | c :: rest =>
        if c = 'L' || c = 'l' then
          match rest.head? with
          | none => some (ds.length + 1, ds)
          | some d => if wordChar d then none else some (ds.length + 1, ds)
        else none
      | [] => none
  else none

/-- Pattern `\bbasestring\b` → `str`. -/
def m_basestring : Matcher := fun prev s =>
  if wordBoundL prev then
    match expect ("basestring".data) s with
    | none => none
    | some r =>
      match r.head? with
      | none => some (10, "str".data)
      | some c => if wordChar c then none else some (10, "str".data)
  else none

/-- Pattern `\s*<>\s*` → ` != `. -/
def m_neq : Matcher := fun _ s =>
  let ws1 := s.takeWhile pySpace
  match s.dropWhile pySpace with
  | '<' :: '>' :: r =>
    some (ws1.length + 2 + (r.takeWhile pySpace).length, " != ".data)
  | _ => none

/-- The tail `\s*([^)]+)\s*\)` shared by the `has_key` and `execfile`
patterns, applied right after the opening parenthesis.  `[^)]+` is greedy
up to the first closing parenthesis; when everything before it is
whitespace the leading `\s*` backtracks to leave one character for the
group. -/
def parenArg (r : List Char) : Option (Nat × List Char) :=
  let s1 := r.takeWhile (fun c => !(c = ')'))
  if s1.isEmpty then none
  else
    match r.dropWhile (fun c => !(c = ')')) with
    | ')' :: _ =>
      let wl := (s1.takeWhile pySpace).length
      let k := if wl < s1.length then wl else s1.length - 1
      some (s1.length + 1, s1.drop k)
    | _ => none

/-- Pattern `(\w+)\.has_key\s*\(\s*([^)]+)\s*\)` → `(\2 in \1)`. -/
def m_has_key : Matcher := fun _ s =>
  let w := s.takeWhile wordChar
  if w.isEmpty then none
  else
    match s.dropWhile wordChar with
    | '.' :: r1 =>
      match expect ("has_key".data) r1 with
      | none => none
      | some r2 =>
        let ws1 := r2.takeWhile pySpace
        match r2.dropWhile pySpace with
        | '(' :: r3 =>
          match parenArg r3 with
          | none => none
          | some nr =>
            some (w.length + 8 + ws1.length + 1 + nr.1,
                  ('(' :: nr.2) ++ " in ".data ++ w ++ [')'])
        | _ => none
    | _ => none

/-- Shared shape of `\.iter<X>\s*\(\s*\)` → `.<X>()` (the `iteritems`,
`iterkeys`, `itervalues` rules). -/
def m_iterRename (lit repl : List Char) : Matcher := fun _ s =>
  match expect lit s with
  | none => none
  | some r1 =>
    let ws1 := r1.takeWhile pySpace
    match r1.dropWhile pySpace with
    | '(' :: r2 =>
      let ws2 := r2.takeWhile pySpace
      match r2.dropWhile pySpace with
      | ')' :: _ => some (lit.length + ws1.length + 1 + ws2.length + 1, repl)
      | _ => none
    | _ => none

def m_iteritems : Matcher := m_iterRename (".iteritems".data) (".items()".data)

def m_iterkeys : Matcher := m_iterRename (".iterkeys".data) (".keys()".data)

def m_itervalues : Matcher := m_iterRename (".itervalues".data) (".values()".data)

/-- Pattern `\bexecfile\s*\(\s*([^)]+)\s*\)` → `exec(open(\1).read())`. -/
def m_execfile : Matcher := fun prev s =>
  if wordBoundL prev then
    match expect ("execfile".data) s with
    | none => none
    | some r1 =>
      let ws1 := r1.takeWhile pySpace
      match r1.dropWhile pySpace with
      | '(' :: r3 =>
        match parenArg r3 with
        | none => none
        | some nr =>
          some (8 + ws1.length + 1 + nr.1,
                "exec(open(".data ++ nr.2 ++ ").read())".data)
      | _ => none
  else none

/-- Final cleanup `re.sub(r'^from __future__ import [^\n]+\n', '', result,
flags=re.MULTILINE)`: delete whole future-import lines together with their
trailing newline.  A final line without a newline is not matched. -/
def m_future : Matcher := fun prev s =>
  if bolv prev then
    match expect ("from __future__ import ".data) s with
    | none => none
    | some r =>
      let t := r.takeWhile (fun c => !(c = '\n'))
      if t.isEmpty then none
      else
        match r.dropWhile (fun c => !(c = '\n')) with
        | '\n' :: _ => some (23 + t.length + 1, [])
        | _ => none
  else none

/-- The ordered rule list of `_compile_patterns`, followed by the
future-import cleanup of `convert_code`. -/
def passList : List Matcher :=
  [m_printEmpty, m_printArgs, m_xrange, m_raw_input, m_except, m_long,
   m_basestring, m_unicode, m_neq, m_has_key, m_iteritems, m_iterkeys,
   m_itervalues, m_execfile, m_future]

/-- The passes applied after the two print-statement rules. -/
def restPassList : List Matcher :=
  [m_xrange, m_raw_input, m_except, m_long,
   m_basestring, m_unicode, m_neq, m_has_key, m_iteritems, m_iterkeys,
   m_itervalues, m_execfile, m_future]

/-- The passes applied after the `except` rule. -/
def afterExceptList : List Matcher :=
  [m_long, m_basestring, m_unicode, m_neq, m_has_key, m_iteritems,
   m_iterkeys, m_itervalues, m_execfile, m_future]

/-- `Py2To3Converter.convert_code` on the character-list representation. -/
def convertChars (s : List Char) : List Char :=
  passList.foldl (fun acc m => runSub m acc) s

/-- `convert_code(source)`: the module-level convenience function. -/
def convert_code (s : String) : String :=
  (convertChars s.data).asString

/-! ### Generic lemmas about the scan driver and list scanning -/

theorem expect_append (a b : List Char) : expect a (a ++ b) = some b := by
  induction a with
  | nil => rfl
  | cons c cs ih => simp [expect, ih]

theorem expect_eq_some {a t r : List Char} (h : expect a t = some r) :
    t = a ++ r := by
  induction a generalizing t with
  | nil => simpa [expect] using h
  | cons c cs ih =>
    cases t with
    | nil => simp [expect] at h
    | cons d ds =>
      by_cases hc : c = d
      · subst hc
        simp only [expect, if_pos rfl] at h
        simpa using ih h
      · simp [expect, hc] at h

theorem takeWhile_append_all {p : Char → Bool} {a : List Char}
    (h : ∀ c ∈ a, p c = true) (b : List Char) :
    (a ++ b).takeWhile p = a ++ b.takeWhile p := by
  induction a with
  | nil => simp
  | cons c cs ih =>
    have hc : p c = true := h c (by simp)
    simp only [List.cons_append, List.takeWhile_cons, hc, if_true]
    have := ih (fun x hx => h x (by simp [hx]))
    simp [this]

theorem dropWhile_append_all {p : Char → Bool} {a : List Char}
    (h : ∀ c ∈ a, p c = true) (b : List Char) :
    (a ++ b).dropWhile p = b.dropWhile p := by
  induction a with
  | nil => simp
  | cons c cs ih =>
    have hc : p c = true := h c (by simp)
    simp only [List.cons_append, List.dropWhile_cons, hc, if_true]
    exact ih (fun x hx => h x (by simp [hx]))

theorem takeWhile_eq_self_of_all {p : Char → Bool} {l : List Char}
    (h : ∀ c ∈ l, p c = true) : l.takeWhile p = l :=
  List.takeWhile_eq_self_iff.mpr h

theorem dropWhile_eq_nil_of_all {p : Char → Bool} {l : List Char}
    (h : ∀ c ∈ l, p c = true) : l.dropWhile p = [] := by
  induction l with
  | nil => rfl
  | cons c cs ih =>
    have hc : p c = true := h c (by simp)
    simp only [List.dropWhile_cons, hc, if_true]
    exact ih (fun x hx => h x (by simp [hx]))

theorem dropWhile_eq_self_of_takeWhile_nil {p : Char → Bool} {l : List Char}
    (h : l.takeWhile p = []) : l.dropWhile p = l := by
  cases l with
  | nil => rfl
  | cons c cs =>
    by_cases hc : p c = true
    · simp [List.takeWhile_cons, hc] at h
    · simp [List.dropWhile_cons, hc]

theorem mem_of_mem_dropWhile {p : Char → Bool} {x : Char} {l : List Char}
    (h : x ∈ l.dropWhile p) : x ∈ l := by
  induction l with
  | nil => simp at h
  | cons c cs ih =>
    by_cases hc : p c = true
    · simp only [List.dropWhile_cons, hc, if_true] at h
      exact List.mem_cons_of_mem _ (ih h)
    · simpa [List.dropWhile_cons, hc] using h

theorem subAux_eq_self_of_noMatch (m : Matcher) {prev : Option Char}
    {s : List Char} (h : noMatch m prev s = true) :
    ∀ fl, subAux m fl prev s = s := by
  induction s generalizing prev with
  | nil => intro fl; cases fl <;> rfl
  | cons c rest ih =>
    intro fl
    simp only [noMatch, Bool.and_eq_true, Option.isNone_iff_eq_none] at h
    cases fl with
    | zero => rfl
    | succ fl =>
      simp only [subAux, h.1]
      exact congrArg (c :: ·) (ih h.2 fl)

theorem runSub_eq_self {m : Matcher} {s : List Char}
    (h : noMatch m none s = true) : runSub m s = s :=
  subAux_eq_self_of_noMatch m h _

theorem runSub_full {m : Matcher} {s r : List Char}
    (h : m none s = some (s.length, r)) (hne : s ≠ []) : runSub m s = r := by
  cases s with
  | nil => exact absurd rfl hne
  | cons c rest =>
    show subAux m (rest.length + 1) none (c :: rest) = r
    simp only [subAux, h]
    have hlen : (c :: rest).length ≠ 0 := by simp
    rw [if_neg hlen]
    have hdrop : List.drop (c :: rest).length (c :: rest) = [] :=
      List.drop_length _
    rw [hdrop]
    have : ∀ fl p, subAux m fl p ([] : List Char) = [] := by
      intro fl p; cases fl <;> rfl
    rw [this, List.append_nil]

theorem foldl_runSub_eq_self {L : List Matcher} {s : List Char}
    (h : ∀ m ∈ L, noMatch m none s = true) :
    L.foldl (fun acc m => runSub m acc) s = s := by
  induction L with
  | nil => rfl
  | cons m L ih =>
    simp only [List.foldl_cons]
    rw [runSub_eq_self (h m (by simp))]
    exact ih (fun m' hm' => h m' (by simp [hm']))

/-- A matcher that fails away from beginning-of-line positions fails
everywhere in a newline-free string once it fails at position 0. -/
theorem noMatch_of_bolGate {m : Matcher}
    (hg : ∀ p t, bolv p = false → m p t = none) {s : List Char}
    (h0 : m none s = none) (hnl : ∀ c ∈ s, (c = '\n') = False) :
    noMatch m none s = true := by
  have aux : ∀ t (c : Char), (c = '\n') = False →
      (∀ x ∈ t, (x = '\n') = False) → noMatch m (some c) t = true := by
    intro t
    induction t with
    | nil => intro c _ _; rfl
    | cons d ds ih =>
      intro c hc ht
      have hb : bolv (some c) = false := by simp [bolv, hc]
      simp only [noMatch, Bool.and_eq_true, Option.isNone_iff_eq_none]
      exact ⟨hg _ _ hb, ih d (ht d (by simp)) (fun x hx => ht x (by simp [hx]))⟩
  cases s with
  | nil => rfl
  | cons c rest =>
    simp only [noMatch, Bool.and_eq_true, Option.isNone_iff_eq_none]
    refine ⟨h0, aux rest c (hnl c (by simp)) (fun x hx => hnl x (by simp [hx]))⟩

/-- A matcher that can only succeed when the remaining text contains a
character satisfying `q` fails everywhere in a `q`-free string. -/
theorem noMatch_of_needs {m : Matcher} {q : Char → Bool}
    (hneed : ∀ p t nr, m p t = some nr → ∃ c ∈ t, q c = true)
    {s : List Char} (hs : ∀ c ∈ s, q c = false) :
    ∀ prev, noMatch m prev s = true := by
  induction s with
  | nil => intro prev; rfl
  | cons c rest ih =>
    intro prev
    simp only [noMatch, Bool.and_eq_true, Option.isNone_iff_eq_none]
    constructor
    · cases hm : m prev (c :: rest) with
      | none => rfl
      | some nr =>
        obtain ⟨x, hx, hqx⟩ := hneed _ _ _ hm
        have := hs x hx
        rw [this] at hqx; exact absurd hqx (by simp)
    · exact ih (fun x hx => hs x (by simp [hx])) (some c)

/-! ### Character-class facts and per-matcher occurrence requirements -/

def isParen (c : Char) : Bool := c = '('

def isLt (c : Char) : Bool := c = '<'

theorem pySpace_elim {c : Char} (h : pySpace c = true) :
    c = ' ' ∨ c = '\t' ∨ c = '\n' ∨ c = '\r' ∨
    c = Char.ofNat 11 ∨ c = Char.ofNat 12 := by
  simp only [pySpace, Bool.or_eq_true, decide_eq_true_eq] at h
  tauto

theorem pySpace_false_of_wordChar {c : Char} (h : wordChar c = true) :
    pySpace c = false := by
  cases hp : pySpace c with
  | false => rfl
  | true =>
    rcases pySpace_elim hp with h1 | h1 | h1 | h1 | h1 | h1 <;>
      (subst h1; simp [wordChar, Char.isAlphanum, Char.isAlpha,
        Char.isUpper, Char.isLower, Char.isDigit] at h)

theorem ne_nl_of_wordChar {c : Char} (h : wordChar c = true) :
    (c = '\n') = False := by
  have := pySpace_false_of_wordChar h
  by_cases hc : c = '\n'
  · subst hc; simp [pySpace] at this
  · simp [hc]

theorem takeWhile_ne_nil_mem {p : Char → Bool} {l : List Char}
    (h : l.takeWhile p ≠ []) : ∃ c ∈ l, p c = true := by
  cases l with
  | nil => simp [List.takeWhile] at h
  | cons c cs =>
    by_cases hc : p c = true
    · exact ⟨c, by simp, hc⟩
    · simp [List.takeWhile_cons, hc] at h

theorem m_callRename_needs {lit repl : List Char} :
    ∀ p t nr, m_callRename lit repl p t = some nr → ∃ c ∈ t, isParen c = true := by
  intro p t nr hm
  simp only [m_callRename] at hm
  split at hm
  · split at hm
    · exact absurd hm (by simp)
    · rename_i r1 he
      split at hm
      · rename_i tail heq
        refine ⟨'(', ?_, by simp [isParen]⟩
        rw [expect_eq_some he]
        exact List.mem_append_right _ (mem_of_mem_dropWhile (by rw [heq]; simp))
      · exact absurd hm (by simp)
  · exact absurd hm (by simp)

theorem m_iterRename_needs {lit repl : List Char} :
    ∀ p t nr, m_iterRename lit repl p t = some nr → ∃ c ∈ t, isParen c = true := by
  intro p t nr hm
  simp only [m_iterRename] at hm
  split at hm
  · exact absurd hm (by simp)
  · rename_i r1 he
    split at hm
    · rename_i r2 heq
      refine ⟨'(', ?_, by simp [isParen]⟩
      rw [expect_eq_some he]
      exact List.mem_append_right _ (mem_of_mem_dropWhile (by rw [heq]; simp))
    · exact absurd hm (by simp)

theorem m_has_key_needs :
    ∀ p t nr, m_has_key p t = some nr → ∃ c ∈ t, isParen c = true := by
  intro p t nr hm
  simp only [m_has_key] at hm
  split at hm
  · exact absurd hm (by simp)
  · split at hm
    · rename_i r1 hdw
      split at hm
      · exact absurd hm (by simp)
      · rename_i r2 he
        split at hm
        · rename_i r3 heq
          refine ⟨'(', ?_, by simp [isParen]⟩
          have h1 : '(' ∈ r2 := mem_of_mem_dropWhile (by rw [heq]; simp)
          have h2 : '(' ∈ r1 := by
            rw [expect_eq_some he]; exact List.mem_append_right _ h1
          exact mem_of_mem_dropWhile (p := wordChar) (by rw [hdw]; simp [h2])
        · exact absurd hm (by simp)
    · exact absurd hm (by simp)

theorem m_execfile_needs :
    ∀ p t nr, m_execfile p t = some nr → ∃ c ∈ t, isParen c = true := by
  intro p t nr hm
  simp only [m_execfile] at hm
  split at hm
  · split at hm
    · exact absurd hm (by simp)
    · rename_i r1 he
      split at hm
      · rename_i r3 heq
        refine ⟨'(', ?_, by simp [isParen]⟩
        rw [expect_eq_some he]
        exact List.mem_append_right _ (mem_of_mem_dropWhile (by rw [heq]; simp))
      · exact absurd hm (by simp)
  · exact absurd hm (by simp)

theorem m_neq_needs :
    ∀ p t nr, m_neq p t = some nr → ∃ c ∈ t, isLt c = true := by
  intro p t nr hm
  simp only [m_neq] at hm
  split at hm
  · rename_i r heq
    exact ⟨'<', mem_of_mem_dropWhile (by rw [heq]; simp), by simp [isLt]⟩
  · exact absurd hm (by simp)

theorem m_long_needs :
    ∀ p t nr, m_long p t = some nr → ∃ c ∈ t, c.isDigit = true := by
  intro p t nr hm
  simp only [m_long] at hm
  split at hm
  · split at hm
    · exact absurd hm (by simp)
    · rename_i hne
      exact takeWhile_ne_nil_mem (by simpa using hne)
  · exact absurd hm (by simp)

/-! ### Newline-freeness infrastructure -/

/-- Boolean "this character is not a newline". -/
def notNl (c : Char) : Bool := !(c = '\n')

theorem nl_False_of_all_notNl {l : List Char} (h : l.all notNl = true) :
    ∀ c ∈ l, (c = '\n') = False := by
  intro c hc
  have hb := List.all_eq_true.mp h c hc
  simp only [notNl, Bool.not_eq_true'] at hb
  simpa using hb

theorem notNl_fun_of_all {l : List Char} (h : l.all notNl = true) :
    ∀ c ∈ l, (fun c => !(c = '\n')) c = true := by
  intro c hc
  exact List.all_eq_true.mp h c hc

/-! ### Claim theorems: concrete behaviour -/

/-- C1 (counterexample): `convert_code` is NOT idempotent on every input
string.  A `has_key` call whose captured argument (`[^)]+`, which stops at
the first closing parenthesis) itself contains a nested `has_key` call
produces output in which the `has_key` pattern matches again, so a second
application changes the text once more:
`convert_code "d.has_key(d.has_key(k))" = "(d.has_key(k in d))"`, while a
second application turns that into `"((k in d in d))"`. -/
theorem convert_code_not_idempotent :
    convert_code (convert_code "d.has_key(d.has_key(k))") ≠
      convert_code "d.has_key(d.has_key(k))" := by decide

/-- C1 (amended): `convert_code` is idempotent on already-converted text
and on each of the specification's rule examples — one representative
input per rewrite rule plus the pass-through and guard cases — though not
on every string (nested `has_key`/`execfile` calls defeat it). -/
theorem convert_code_idempotent_on_examples :
    (convert_code (convert_code "print") = convert_code "print") ∧
    (convert_code (convert_code "print \"hi\",") = convert_code "print \"hi\",") ∧
    (convert_code (convert_code "print x") = convert_code "print x") ∧
    (convert_code (convert_code "  print x") = convert_code "  print x") ∧
    (convert_code (convert_code "print (x)") = convert_code "print (x)") ∧
    (convert_code (convert_code "print >> f, \"oops\"") =
      convert_code "print >> f, \"oops\"") ∧
    (convert_code (convert_code "for i in xrange(10):") =
      convert_code "for i in xrange(10):") ∧
    (convert_code (convert_code "name = raw_input()") =
      convert_code "name = raw_input()") ∧
    (convert_code (convert_code "except socket.error, e:") =
      convert_code "except socket.error, e:") ∧
    (convert_code (convert_code "x = 100L") = convert_code "x = 100L") ∧
    (convert_code (convert_code "isinstance(x, basestring)") =
      convert_code "isinstance(x, basestring)") ∧
    (convert_code (convert_code "unicode(x)") = convert_code "unicode(x)") ∧
    (convert_code (convert_code "a <> b") = convert_code "a <> b") ∧
    (convert_code (convert_code "if d.has_key(k):") =
      convert_code "if d.has_key(k):") ∧
    (convert_code (convert_code "d.iteritems()") = convert_code "d.iteritems()") ∧
    (convert_code (convert_code "d.iterkeys()") = convert_code "d.iterkeys()") ∧
    (convert_code (convert_code "d.itervalues()") =
      convert_code "d.itervalues()") ∧
    (convert_code (convert_code "execfile('f.py')") =
      convert_code "execfile('f.py')") ∧
    (convert_code
        (convert_code "x = 1\nfrom __future__ import print_function\ny = 2\n") =
      convert_code "x = 1\nfrom __future__ import print_function\ny = 2\n") ∧
    (convert_code (convert_code "x = 1 + 2") = convert_code "x = 1 + 2") := by
  refine ⟨?_, ?_, ?_, ?_, ?_, ?_, ?_, ?_, ?_, ?_, ?_, ?_, ?_, ?_, ?_, ?_,
    ?_, ?_, ?_, ?_⟩ <;> decide

/-- C2: the redirect branch of `_convert_print` uses `(\w+)` for the
stream expression, which cannot match the dotted name `sys.stderr`; the
line therefore falls through to the generic print rewrite and yields the
syntactically invalid `print(>> sys.stderr, "oops")` instead of the
documented `print("oops", file=sys.stderr)`.  With an undotted stream
name the redirect (and its trailing-comma combination) behaves as the
specification describes. -/
theorem convert_print_redirect_behavior :
    (convert_code "print >> sys.stderr, \"oops\"" =
      "print(>> sys.stderr, \"oops\")") ∧
    (convert_code "print >> sys.stderr, \"oops\"" ≠
      "print(\"oops\", file=sys.stderr)") ∧
    (convert_code "print >> f, \"oops\"" = "print(\"oops\", file=f)") ∧
    (convert_code "print >> f, \"x\"," = "print(\"x\", file=f, end=\" \")") := by
  refine ⟨?_, ?_, ?_, ?_⟩ <;> decide

/-- C6: the long-integer-suffix rule `\b(\d+)[Ll]\b` strips the suffix of
a word-bounded decimal literal and leaves a literal whose suffix letter
continues into a longer identifier untouched. -/
theorem long_literal_word_boundary :
    (convert_code "x = 100L" = "x = 100") ∧
    (convert_code "x = 100Long" = "x = 100Long") ∧
    (convert_code "y = 42l" = "y = 42") ∧
    (convert_code "x = 100Lx" = "x = 100Lx") := by
  refine ⟨?_, ?_, ?_, ?_⟩ <;> decide

/-- C7 (counterexample): the `has_key` pattern captures the receiver with
`(\w+)`, a single identifier, so for a dotted receiver only the final
component is moved into the membership test: `x.d.has_key(k)` becomes
`x.(k in d)`, not `(k in x.d)` as the claim's "any receiver expression"
reading would require. -/
theorem has_key_dotted_receiver_cex :
    (convert_code "x.d.has_key(k)" = "x.(k in d)") ∧
    (convert_code "x.d.has_key(k)" ≠ "(k in x.d)") := by
  exact ⟨by decide, by decide⟩

/-- C7 (amended): `<ident>.has_key(<key>)` is rewritten to
`(<key> in <ident>)` where `<ident>` is the single identifier immediately
before `.has_key`, regardless of whether it denotes a mapping; for a
dotted receiver only the final identifier is captured. -/
theorem has_key_rewrite_examples :
    (convert_code "if d.has_key(k):" = "if (k in d):") ∧
    (convert_code "obj.has_key(x)" = "(x in obj)") ∧
    (convert_code "x.d.has_key(k)" = "x.(k in d)") := by
  refine ⟨?_, ?_, ?_⟩ <;> decide

/-- C10: the `\s*<>\s*` rule's whitespace classes include newlines, so a
`<>` at the end of a line absorbs the line break and joins the two lines
around a single ` != `. -/
theorem neq_rule_merges_lines :
    (convert_code "a <>\nb" = "a != b") ∧
    (convert_code "a <> b" = "a != b") := by
  exact ⟨by decide, by decide⟩

/-! ### Claim theorems: the future-import cleanup pass -/

theorem futureData_cons :
    ("from __future__ import ".data : List Char) =
      'f' :: "rom __future__ import ".data := rfl

theorem m_future_none_of_no_newline {rest : List Char}
    (hnl : rest.all notNl = true) :
    m_future none ("from __future__ import ".data ++ rest) = none := by
  simp only [m_future, bolv, if_true, expect_append]
  cases rest with
  | nil => rfl
  | cons c cs =>
    have ht : (c :: cs).takeWhile (fun c => !(c = '\n')) = c :: cs :=
      takeWhile_eq_self_of_all (notNl_fun_of_all hnl)
    have hd : (c :: cs).dropWhile (fun c => !(c = '\n')) = [] :=
      dropWhile_eq_nil_of_all (notNl_fun_of_all hnl)
    simp only [ht, hd]
    simp

/-- C9: the cleanup regex `^from __future__ import [^\n]+\n` requires a
trailing newline, so a final future-import line that is not
newline-terminated survives `convert_code` unchanged. -/
theorem future_import_without_newline_kept :
    (∀ rest : List Char, rest.all notNl = true →
      runSub m_future ("from __future__ import ".data ++ rest) =
        "from __future__ import ".data ++ rest) ∧
    (convert_code "from __future__ import print_function" =
      "from __future__ import print_function") := by
  constructor
  · intro rest hnl
    apply runSub_eq_self
    apply noMatch_of_bolGate (m := m_future)
    · intro p t hb
      simp [m_future, hb]
    · exact m_future_none_of_no_newline hnl
    · intro c hc
      rcases List.mem_append.mp hc with h | h
      · exact nl_False_of_all_notNl (by decide) c h
      · exact nl_False_of_all_notNl hnl c h
  · decide

/-- C9 witness: the universal part applied to the concrete final line
`from __future__ import print_function` (no trailing newline). -/
theorem future_import_without_newline_kept_witness :
    runSub m_future ("from __future__ import ".data ++ "print_function".data) =
      "from __future__ import ".data ++ "print_function".data :=
  future_import_without_newline_kept.1 ("print_function".data) (by decide)

/-- C5: a whole future-import line followed by its newline is removed
entirely by the cleanup pass (universally in the imported text), and in a
document the line and its newline disappear with the surrounding lines
untouched — no blank line is left behind. -/
theorem future_import_line_removed :
    (∀ rest : List Char, rest ≠ [] → rest.all notNl = true →
      runSub m_future
        ("from __future__ import ".data ++ (rest ++ ['\n'])) = []) ∧
    (convert_code "x = 1\nfrom __future__ import print_function\ny = 2\n" =
      "x = 1\ny = 2\n") ∧
    (convert_code "a = 0\nfrom __future__ import division\nb = 3\n" =
      "a = 0\nb = 3\n") := by
  refine ⟨?_, by decide, by decide⟩
  intro rest hne hnl
  apply runSub_full
  · simp only [m_future, bolv, if_true, expect_append]
    have ht : (rest ++ ['\n']).takeWhile (fun c => !(c = '\n')) = rest := by
      rw [takeWhile_append_all (notNl_fun_of_all hnl)]
      simp
    have hd : (rest ++ ['\n']).dropWhile (fun c => !(c = '\n')) = ['\n'] := by
      rw [dropWhile_append_all (notNl_fun_of_all hnl)]
      simp
    simp only [ht, hd]
    rw [if_neg (by simpa using hne)]
    have hlen : ("from __future__ import ".data ++ (rest ++ ['\n'])).length =
        23 + rest.length + 1 := by
      simp [List.length_append]
      omega
    rw [hlen]
  · simp

/-- C5 witness: the universal part applied to `division`. -/
theorem future_import_line_removed_witness :
    runSub m_future
        ("from __future__ import ".data ++ ("division".data ++ ['\n'])) = [] :=
  future_import_line_removed.1 ("division".data) (by decide) (by decide)

/-! ### Claim theorems: totality and pass-through -/

/-- `s` matches none of the converter's patterns at any position. -/
def untouched (s : List Char) : Bool :=
  passList.all (fun m => noMatch m none s)

/-- C4: the embedded `convert_code` is a total function (any string in,
some string out — the Python code raises no exception of its own), and
text that matches no rule anywhere passes through unchanged; in
particular `"x = 1 + 2"` is returned verbatim. -/
theorem convert_code_total_and_passthrough :
    (∀ s : String, ∃ t : String, convert_code s = t) ∧
    (∀ s : List Char, untouched s = true → convertChars s = s) ∧
    (convert_code "x = 1 + 2" = "x = 1 + 2") := by
  refine ⟨fun s => ⟨convert_code s, rfl⟩, ?_, by decide⟩
  intro s hs
  apply foldl_runSub_eq_self
  intro m hm
  exact List.all_eq_true.mp hs m hm

/-- C4 witness: the pass-through conjunct applied to a concrete unmatched
line. -/
theorem convert_code_total_and_passthrough_witness :
    convertChars ("y = f(2, 3)".data) = "y = f(2, 3)".data :=
  convert_code_total_and_passthrough.2.1 ("y = f(2, 3)".data) (by decide)

/-! ### Claim theorems: the print-statement rule -/

theorem pySpace_of_spaceTab {c : Char} (h : (c = ' ' || c = '\t') = true) :
    pySpace c = true := by
  simp only [Bool.or_eq_true, decide_eq_true_eq] at h
  rcases h with h | h <;> (subst h; decide)

theorem notNl_of_spaceTab {c : Char} (h : (c = ' ' || c = '\t') = true) :
    (c = '\n') = False := by
  simp only [Bool.or_eq_true, decide_eq_true_eq] at h
  rcases h with h | h <;> (subst h; exact eq_false (by decide))

theorem head_false_of_takeWhile_nil {p : Char → Bool} {c : Char}
    {t : List Char} (h : (c :: t).takeWhile p = []) : p c = false := by
  by_cases hc : p c = true
  · simp [List.takeWhile_cons, hc] at h
  · simpa using hc

theorem pyStrip_eq_self {l : List Char} (h1 : l.takeWhile pySpace = [])
    (h2 : l.reverse.takeWhile pySpace = []) : pyStrip l = l := by
  unfold pyStrip
  rw [dropWhile_eq_self_of_takeWhile_nil h1,
    dropWhile_eq_self_of_takeWhile_nil h2, List.reverse_reverse]

theorem takeWhile_nil_dropLast {p : Char → Bool} {l : List Char}
    (h : l.takeWhile p = []) : l.dropLast.takeWhile p = [] := by
  cases l with
  | nil => rfl
  | cons c rest =>
    cases rest with
    | nil => rfl
    | cons d ds =>
      have hc : p c = false := head_false_of_takeWhile_nil h
      simp [List.takeWhile_cons, hc]

/-- The line the print-statement rule produces from an indent and an
argument text, per the specification: call form, with a trailing bare
comma turned into the `end=" "` keyword. -/
def printOut (indent args : List Char) : List Char :=
  if args.getLast? = some ','
  then indent ++ "print(".data ++ args.dropLast ++ ", end=\" \")".data
  else indent ++ "print(".data ++ args ++ ")".data

/-- C3: a single-line document `<indent>print <args>` — indent of spaces
and tabs; `args` nonempty, newline-free, not starting with whitespace or
`(`, not ending in whitespace, and not of the `>> stream, rest` redirect
form — is rewritten by `convert_code` to `<indent>print(<args>)`, and
when `args` ends in a bare comma the comma is stripped and `, end=" "` is
appended instead, provided no later rewrite rule matches the produced
line. -/
theorem print_statement_rule (indent args : List Char)
    (hInd : indent.all (fun c => c = ' ' || c = '\t') = true)
    (hne : args ≠ [])
    (hnl : args.all notNl = true)
    (hlead : args.takeWhile pySpace = [])
    (htrail : args.reverse.takeWhile pySpace = [])
    (hpar : args.head? ≠ some '(')
    (hdl : args.getLast? = some ',' →
      args.dropLast.reverse.takeWhile pySpace = [])
    (hnored : printRedirect
      (if args.getLast? = some ',' then args.dropLast else args) = none)
    (hrest : restPassList.all
      (fun m => noMatch m none (printOut indent args)) = true) :
    convertChars (indent ++ "print ".data ++ args) = printOut indent args := by
  obtain ⟨a0, args', ha⟩ : ∃ a0 args', args = a0 :: args' := by
    cases args with
    | nil => exact absurd rfl hne
    | cons x xs => exact ⟨x, xs, rfl⟩
  have hIndWs : ∀ c ∈ indent, pySpace c = true :=
    fun c hc => pySpace_of_spaceTab (List.all_eq_true.mp hInd c hc)
  have h1 : ("print ".data ++ args).takeWhile pySpace = [] := by
    have e : ("print ".data : List Char) ++ args = 'p' :: ("rint ".data ++ args) := rfl
    rw [e, List.takeWhile_cons, if_neg (by decide)]
  have hTake : (indent ++ "print ".data ++ args).takeWhile pySpace = indent := by
    rw [List.append_assoc, takeWhile_append_all hIndWs, h1, List.append_nil]
  have hDrop : (indent ++ "print ".data ++ args).dropWhile pySpace =
      "print ".data ++ args := by
    rw [List.append_assoc, dropWhile_append_all hIndWs,
      dropWhile_eq_self_of_takeWhile_nil h1]
  have hExpect : expect ("print".data) ("print ".data ++ args) =
      some (' ' :: args) := by
    have e : ("print ".data : List Char) ++ args =
        "print".data ++ (' ' :: args) := rfl
    rw [e, expect_append]
  have hRun : (' ' :: args).takeWhile pySpace = [' '] := by
    rw [List.takeWhile_cons, if_pos (by decide), hlead]
  have hTail : (' ' :: args).dropWhile pySpace = args := by
    rw [List.dropWhile_cons, if_pos (by decide),
      dropWhile_eq_self_of_takeWhile_nil hlead]
  have hsNotNl : ∀ c ∈ indent ++ "print ".data ++ args, (c = '\n') = False := by
    intro c hc
    rcases List.mem_append.mp hc with hc' | hc'
    · rcases List.mem_append.mp hc' with hc'' | hc''
      · exact notNl_of_spaceTab (List.all_eq_true.mp hInd c hc'')
      · exact nl_False_of_all_notNl (by decide) c hc''
    · exact nl_False_of_all_notNl hnl c hc'
  -- the empty-print pattern does not match anywhere
  have hE0 : m_printEmpty none (indent ++ "print ".data ++ args) = none := by
    simp only [m_printEmpty, bolv, if_true, hDrop, hExpect]
    simp only [hRun, hTail]
    rw [ha]
    simp only [List.isEmpty_cons, Bool.false_eq_true, if_false]
    rfl
  have hP1 : runSub m_printEmpty (indent ++ "print ".data ++ args) =
      indent ++ "print ".data ++ args := by
    apply runSub_eq_self
    apply noMatch_of_bolGate (m := m_printEmpty)
    · intro p t hb
      simp [m_printEmpty, hb]
    · exact hE0
    · exact hsNotNl
  -- the print-with-arguments pattern matches at position 0 and consumes
  -- the whole line
  have hA0 : m_printArgs none (indent ++ "print ".data ++ args) =
      some ((indent ++ "print ".data ++ args).length,
        convertPrint indent args) := by
    simp only [m_printArgs, bolv, if_true, hDrop, hExpect, hTake]
    simp only [hRun, hTail]
    have hhead : args.head? = some a0 := by rw [ha]; rfl
    have ha0 : ¬ (a0 = '(') := by
      intro h; exact hpar (by rw [hhead, h])
    simp only [hhead, List.isEmpty_cons, Bool.false_eq_true, if_false,
      if_neg ha0, List.length_cons, List.length_nil, Nat.zero_add,
      List.drop_succ_cons, List.drop_zero, List.nil_append]
    rw [takeWhile_eq_self_of_all (notNl_fun_of_all hnl)]
    have hlen : (indent ++ "print ".data ++ args).length =
        indent.length + 5 + 1 + args.length := by
      simp [List.length_append]
      omega
    rw [hlen]
  have hsne : indent ++ "print ".data ++ args ≠ [] := by
    intro h
    have := congrArg List.length h
    simp [List.length_append] at this
  have hP2 : runSub m_printArgs (indent ++ "print ".data ++ args) =
      convertPrint indent args := runSub_full hA0 hsne
  -- the produced replacement is the specified output line
  have hCP : convertPrint indent args = printOut indent args := by
    unfold convertPrint printOut
    rw [pyStrip_eq_self hlead htrail]
    by_cases hc : args.getLast? = some ','
    · rw [if_pos hc]
      have hdc : pyStrip args.dropLast = args.dropLast :=
        pyStrip_eq_self (takeWhile_nil_dropLast hlead) (hdl hc)
      rw [if_pos hc] at hnored
      simp [hc, hdc, hnored]
    · rw [if_neg hc]
      rw [if_neg hc] at hnored
      simp [hc, hnored]
  -- assemble the full pass pipeline
  have hsplit : passList = m_printEmpty :: m_printArgs :: restPassList := rfl
  unfold convertChars
  rw [hsplit]
  simp only [List.foldl_cons]
  rw [hP1, hP2, hCP]
  exact foldl_runSub_eq_self (fun m hm => List.all_eq_true.mp hrest m hm)

/-- C3 witness: the general print-statement theorem applied to the
specification's example `print "hi",`. -/
theorem print_statement_rule_witness :
    convertChars (([] : List Char) ++ "print ".data ++ "\"hi\",".data) =
      printOut [] ("\"hi\",".data) :=
  print_statement_rule [] ("\"hi\",".data) (by decide) (by decide) (by decide)
    (by decide) (by decide) (by decide) (by decide) (by decide) (by decide)

/-! ### Claim theorems: the except-comma rule -/

theorem wordChar_not_paren {c : Char} (h : wordChar c = true) :
    isParen c = false := by
  by_cases hc : c = '('
  · subst hc; exact absurd h (by decide)
  · simp [isParen, hc]

theorem wordChar_not_lt {c : Char} (h : wordChar c = true) :
    isLt c = false := by
  by_cases hc : c = '<'
  · subst hc; exact absurd h (by decide)
  · simp [isLt, hc]

theorem wordOrDot_not_space {c : Char} (h : wordChar c = true ∨ c = '.') :
    pySpace c = false := by
  rcases h with h | h
  · exact pySpace_false_of_wordChar h
  · subst h; decide

theorem wordOrDot_not_paren {c : Char} (h : wordChar c = true ∨ c = '.') :
    isParen c = false := by
  rcases h with h | h
  · exact wordChar_not_paren h
  · subst h; decide

theorem wordOrDot_not_lt {c : Char} (h : wordChar c = true ∨ c = '.') :
    isLt c = false := by
  rcases h with h | h
  · exact wordChar_not_lt h
  · subst h; decide

theorem wordOrDot_not_nl {c : Char} (h : wordChar c = true ∨ c = '.') :
    (c = '\n') = False := by
  rcases h with h | h
  · exact ne_nl_of_wordChar h
  · subst h; exact eq_false (by decide)

theorem dottedAux_not_dot {l : List Char} (h : l.head? ≠ some '.') :
    ∀ fl, dottedAux fl l = ([], l) := by
  intro fl
  cases l with
  | nil => cases fl <;> rfl
  | cons c cs =>
    cases fl with
    | zero => rfl
    | succ fl =>
      simp only [dottedAux]
      split
      · rename_i r heq
        injection heq with h1 _
        exact absurd (by simp [h1] : (c :: cs).head? = some '.') h
      · rfl

/-- Membership over the five segments of an except-style line. -/
theorem mem_exceptLine {P : Char → Prop} {exc n : List Char}
    (lit mid : List Char)
    (hlit : ∀ c ∈ lit, P c) (hmid : ∀ c ∈ mid, P c)
    (hexc : ∀ c ∈ exc, P c) (hn : ∀ c ∈ n, P c) (hcolon : P ':') :
    ∀ c ∈ lit ++ (exc ++ (mid ++ (n ++ [':']))), P c := by
  intro c hc
  rcases List.mem_append.mp hc with h | h
  · exact hlit c h
  rcases List.mem_append.mp h with h | h
  · exact hexc c h
  rcases List.mem_append.mp h with h | h
  · exact hmid c h
  rcases List.mem_append.mp h with h | h
  · exact hn c h
  · rcases List.mem_singleton.mp h with rfl
    exact hcolon

/-- Once the except matcher consumes a whole line `except <exc>, <n>:`
(hypothesis `hme`), the full converter pipeline turns that single-line
document into `except <exc> as <n>:`, all other passes leaving both the
input and the output untouched. -/
theorem except_line_pipeline (exc n : List Char)
    (hexc : ∀ c ∈ exc, wordChar c = true ∨ c = '.')
    (hn : n.all wordChar = true)
    (hme : m_except none
        ("except ".data ++ (exc ++ (", ".data ++ (n ++ [':'])))) =
      some (("except ".data ++ (exc ++ (", ".data ++ (n ++ [':'])))).length,
        "except ".data ++ (exc ++ (" as ".data ++ (n ++ [':'])))))
    (hlong : noMatch m_long none
      ("except ".data ++ (exc ++ (" as ".data ++ (n ++ [':'])))) = true)
    (hbase : noMatch m_basestring none
      ("except ".data ++ (exc ++ (" as ".data ++ (n ++ [':'])))) = true) :
    convertChars ("except ".data ++ (exc ++ (", ".data ++ (n ++ [':'])))) =
      "except ".data ++ (exc ++ (" as ".data ++ (n ++ [':']))) := by
  have hnw : ∀ c ∈ n, wordChar c = true := List.all_eq_true.mp hn
  -- character-class facts about the input line and the output line
  have hsNl : ∀ c ∈ "except ".data ++ (exc ++ (", ".data ++ (n ++ [':']))),
      (c = '\n') = False :=
    mem_exceptLine _ _ (by intro c hc; fin_cases hc <;> exact eq_false (by decide))
      (by intro c hc; fin_cases hc <;> exact eq_false (by decide))
      (fun c hc => wordOrDot_not_nl (hexc c hc))
      (fun c hc => ne_nl_of_wordChar (hnw c hc)) (eq_false (by decide))
  have hsPar : ∀ c ∈ "except ".data ++ (exc ++ (", ".data ++ (n ++ [':']))),
      isParen c = false :=
    mem_exceptLine _ _ (by intro c hc; fin_cases hc <;> decide)
      (by intro c hc; fin_cases hc <;> decide)
      (fun c hc => wordOrDot_not_paren (hexc c hc))
      (fun c hc => wordChar_not_paren (hnw c hc)) (by decide)
  have hoNl : ∀ c ∈ "except ".data ++ (exc ++ (" as ".data ++ (n ++ [':']))),
      (c = '\n') = False :=
    mem_exceptLine _ _ (by intro c hc; fin_cases hc <;> exact eq_false (by decide))
      (by intro c hc; fin_cases hc <;> exact eq_false (by decide))
      (fun c hc => wordOrDot_not_nl (hexc c hc))
      (fun c hc => ne_nl_of_wordChar (hnw c hc)) (eq_false (by decide))
  have hoPar : ∀ c ∈ "except ".data ++ (exc ++ (" as ".data ++ (n ++ [':']))),
      isParen c = false :=
    mem_exceptLine _ _ (by intro c hc; fin_cases hc <;> decide)
      (by intro c hc; fin_cases hc <;> decide)
      (fun c hc => wordOrDot_not_paren (hexc c hc))
      (fun c hc => wordChar_not_paren (hnw c hc)) (by decide)
  have hoLt : ∀ c ∈ "except ".data ++ (exc ++ (" as ".data ++ (n ++ [':']))),
      isLt c = false :=
    mem_exceptLine _ _ (by intro c hc; fin_cases hc <;> decide)
      (by intro c hc; fin_cases hc <;> decide)
      (fun c hc => wordOrDot_not_lt (hexc c hc))
      (fun c hc => wordChar_not_lt (hnw c hc)) (by decide)
  -- neither print pattern can match the input line
  have hsc : ("except ".data : List Char) ++ (exc ++ (", ".data ++ (n ++ [':']))) =
      'e' :: ("xcept ".data ++ (exc ++ (", ".data ++ (n ++ [':'])))) := rfl
  have hPE : m_printEmpty none
      ("except ".data ++ (exc ++ (", ".data ++ (n ++ [':'])))) = none := by
    simp only [m_printEmpty, bolv, if_true, hsc]
    rw [List.dropWhile_cons, if_neg (by decide)]
    rfl
  have hPA : m_printArgs none
      ("except ".data ++ (exc ++ (", ".data ++ (n ++ [':'])))) = none := by
    simp only [m_printArgs, bolv, if_true, hsc]
    rw [List.dropWhile_cons, if_neg (by decide)]
    rfl
  have hq1 : runSub m_printEmpty
      ("except ".data ++ (exc ++ (", ".data ++ (n ++ [':'])))) =
      ("except ".data ++ (exc ++ (", ".data ++ (n ++ [':'])))) :=
    runSub_eq_self (noMatch_of_bolGate
      (by intro p t hb; simp [m_printEmpty, hb]) hPE hsNl)
  have hq2 : runSub m_printArgs
      ("except ".data ++ (exc ++ (", ".data ++ (n ++ [':'])))) =
      ("except ".data ++ (exc ++ (", ".data ++ (n ++ [':'])))) :=
    runSub_eq_self (noMatch_of_bolGate
      (by intro p t hb; simp [m_printArgs, hb]) hPA hsNl)
  have hq3 : runSub m_xrange
      ("except ".data ++ (exc ++ (", ".data ++ (n ++ [':'])))) =
      ("except ".data ++ (exc ++ (", ".data ++ (n ++ [':'])))) :=
    runSub_eq_self (noMatch_of_needs m_callRename_needs hsPar none)
  have hq4 : runSub m_raw_input
      ("except ".data ++ (exc ++ (", ".data ++ (n ++ [':'])))) =
      ("except ".data ++ (exc ++ (", ".data ++ (n ++ [':'])))) :=
    runSub_eq_self (noMatch_of_needs m_callRename_needs hsPar none)
  have hsneq : ("except ".data : List Char) ++
      (exc ++ (", ".data ++ (n ++ [':']))) ≠ [] := by
    rw [hsc]; exact List.cons_ne_nil _ _
  have hq5 : runSub m_except
      ("except ".data ++ (exc ++ (", ".data ++ (n ++ [':'])))) =
      "except ".data ++ (exc ++ (" as ".data ++ (n ++ [':']))) :=
    runSub_full hme hsneq
  -- none of the later passes touches the output line
  have hoc : ("except ".data : List Char) ++ (exc ++ (" as ".data ++ (n ++ [':']))) =
      'e' :: ("xcept ".data ++ (exc ++ (" as ".data ++ (n ++ [':'])))) := rfl
  have hFut : m_future none
      ("except ".data ++ (exc ++ (" as ".data ++ (n ++ [':'])))) = none := by
    simp only [m_future, bolv, if_true, hoc]
    rfl
  have hafter : ∀ m ∈ afterExceptList,
      noMatch m none
        ("except ".data ++ (exc ++ (" as ".data ++ (n ++ [':'])))) = true := by
    intro m hm
    simp only [afterExceptList, List.mem_cons, List.not_mem_nil, or_false] at hm
    rcases hm with rfl | rfl | rfl | rfl | rfl | rfl | rfl | rfl | rfl | rfl
    · exact hlong
    · exact hbase
    · exact noMatch_of_needs m_callRename_needs hoPar none
    · exact noMatch_of_needs m_neq_needs hoLt none
    · exact noMatch_of_needs m_has_key_needs hoPar none
    · exact noMatch_of_needs m_iterRename_needs hoPar none
    · exact noMatch_of_needs m_iterRename_needs hoPar none
    · exact noMatch_of_needs m_iterRename_needs hoPar none
    · exact noMatch_of_needs m_execfile_needs hoPar none
    · exact noMatch_of_bolGate (by intro p t hb; simp [m_future, hb]) hFut hoNl
  have hsplit : passList = m_printEmpty :: m_printArgs :: m_xrange ::
      m_raw_input :: m_except :: afterExceptList := rfl
  unfold convertChars
  rw [hsplit]
  simp only [List.foldl_cons]
  rw [hq1, hq2, hq3, hq4, hq5]
  exact foldl_runSub_eq_self hafter

theorem takeWhile_word_comma (Z : List Char) :
    (", ".data ++ Z).takeWhile wordChar = [] := by
  rw [show (", ".data : List Char) ++ Z = ',' :: (' ' :: Z) from rfl,
    List.takeWhile_cons, if_neg (by decide)]

theorem takeWhile_space_comma (Z : List Char) :
    (", ".data ++ Z).takeWhile pySpace = [] := by
  rw [show (", ".data : List Char) ++ Z = ',' :: (' ' :: Z) from rfl,
    List.takeWhile_cons, if_neg (by decide)]

/-- The except matcher consumes the whole line `except <w0>, <n>:` for a
plain identifier `<w0>`, producing `except <w0> as <n>:`. -/
theorem m_except_match_plain (w0 n : List Char)
    (hw0 : w0.all wordChar = true) (hw0ne : w0 ≠ [])
    (hn : n.all wordChar = true) (hnne : n ≠ []) :
    m_except none ("except ".data ++ (w0 ++ (", ".data ++ (n ++ [':'])))) =
      some (("except ".data ++ (w0 ++ (", ".data ++ (n ++ [':'])))).length,
        "except ".data ++ (w0 ++ (" as ".data ++ (n ++ [':'])))) := by
  obtain ⟨b, w0', rfl⟩ : ∃ b w0', w0 = b :: w0' := by
    cases w0 with
    | nil => exact absurd rfl hw0ne
    | cons x xs => exact ⟨x, xs, rfl⟩
  obtain ⟨d, n', rfl⟩ : ∃ d n', n = d :: n' := by
    cases n with
    | nil => exact absurd rfl hnne
    | cons x xs => exact ⟨x, xs, rfl⟩
  have hw0w : ∀ c ∈ b :: w0', wordChar c = true := List.all_eq_true.mp hw0
  have hnw : ∀ c ∈ d :: n', wordChar c = true := List.all_eq_true.mp hn
  have hbws : pySpace b = false := pySpace_false_of_wordChar (hw0w b (by simp))
  have hdws : pySpace d = false := pySpace_false_of_wordChar (hnw d (by simp))
  have hXtake : List.takeWhile pySpace
      ((b :: w0') ++ ([',', ' '] ++ ((d :: n') ++ [':']))) = [] := by
    rw [List.cons_append, List.takeWhile_cons, if_neg (by simp [hbws])]
  have hA_t : List.takeWhile pySpace
      (' ' :: ((b :: w0') ++ ([',', ' '] ++ ((d :: n') ++ [':'])))) = [' '] := by
    rw [List.takeWhile_cons, if_pos (show pySpace ' ' = true by decide), hXtake]
  have hA_d : List.dropWhile pySpace
      (' ' :: ((b :: w0') ++ ([',', ' '] ++ ((d :: n') ++ [':'])))) =
      (b :: w0') ++ ([',', ' '] ++ ((d :: n') ++ [':'])) := by
    rw [List.dropWhile_cons, if_pos (show pySpace ' ' = true by decide)]
    exact dropWhile_eq_self_of_takeWhile_nil hXtake
  have hB_t : List.takeWhile wordChar
      ((b :: w0') ++ ([',', ' '] ++ ((d :: n') ++ [':']))) = b :: w0' := by
    rw [takeWhile_append_all hw0w,
      show List.takeWhile wordChar ([',', ' '] ++ ((d :: n') ++ [':'])) = []
        from by rw [List.cons_append, List.takeWhile_cons, if_neg (by decide)],
      List.append_nil]
  have hB_d : List.dropWhile wordChar
      ((b :: w0') ++ ([',', ' '] ++ ((d :: n') ++ [':']))) =
      [',', ' '] ++ ((d :: n') ++ [':']) := by
    rw [dropWhile_append_all hw0w]
    exact dropWhile_eq_self_of_takeWhile_nil
      (by rw [List.cons_append, List.takeWhile_cons, if_neg (by decide)])
  have hDot : dottedAux ([',', ' '] ++ ((d :: n') ++ [':'])).length
      ([',', ' '] ++ ((d :: n') ++ [':'])) =
      ([], [',', ' '] ++ ((d :: n') ++ [':'])) :=
    dottedAux_not_dot (by rw [List.cons_append]; simp) _
  have hC_t : List.takeWhile pySpace ([',', ' '] ++ ((d :: n') ++ [':'])) = [] := by
    rw [List.cons_append, List.takeWhile_cons, if_neg (by decide)]
  have hC_d : List.dropWhile pySpace ([',', ' '] ++ ((d :: n') ++ [':'])) =
      ',' :: (' ' :: ((d :: n') ++ [':'])) := by
    rw [List.cons_append, List.dropWhile_cons, if_neg (by decide)]
    simp
  have hD_t : List.takeWhile pySpace (' ' :: ((d :: n') ++ [':'])) = [' '] := by
    rw [List.takeWhile_cons, if_pos (show pySpace ' ' = true by decide),
      List.cons_append, List.takeWhile_cons, if_neg (by simp [hdws])]
  have hD_d : List.dropWhile pySpace (' ' :: ((d :: n') ++ [':'])) =
      (d :: n') ++ [':'] := by
    rw [List.dropWhile_cons, if_pos (show pySpace ' ' = true by decide)]
    exact dropWhile_eq_self_of_takeWhile_nil
      (by rw [List.cons_append, List.takeWhile_cons, if_neg (by simp [hdws])])
  have hE_t : List.takeWhile wordChar ((d :: n') ++ [':']) = d :: n' := by
    rw [takeWhile_append_all hnw,
      show List.takeWhile wordChar ([':'] : List Char) = [] from by decide,
      List.append_nil]
  have hE_d : List.dropWhile wordChar ((d :: n') ++ [':']) = [':'] := by
    rw [dropWhile_append_all hnw]
    decide
  have hF_t : List.takeWhile pySpace ([':'] : List Char) = [] := by decide
  have hF_d : List.dropWhile pySpace ([':'] : List Char) = [':'] := by decide
  have e1 : ("except ".data : List Char) ++
      ((b :: w0') ++ (", ".data ++ (d :: n' ++ [':']))) =
      "except".data ++ (' ' :: ((b :: w0') ++ (", ".data ++ (d :: n' ++ [':'])))) :=
    rfl
  simp only [m_except, e1, expect_append]
  simp only [hA_t, hA_d, hB_t, hB_d, hDot, hC_t, hC_d, hD_t, hD_d, hE_t, hE_d,
    hF_t, hF_d, List.isEmpty_cons, Bool.false_eq_true, if_false]
  simp only [Option.some.injEq, Prod.mk.injEq]
  constructor
  · simp [List.length_append]
    omega
  · simp [List.append_assoc]

/-- One `.word` group followed by text that starts with neither a word
character nor a dot. -/
theorem dottedAux_one_dot (w rest : List Char) (fl : Nat)
    (hw : ∀ c ∈ w, wordChar c = true) (hwne : w ≠ [])
    (hrest : rest.head? ≠ some '.') (hrw : rest.takeWhile wordChar = []) :
    dottedAux (Nat.succ fl) ('.' :: (w ++ rest)) = ('.' :: w, rest) := by
  obtain ⟨a, w', rfl⟩ : ∃ a w', w = a :: w' := by
    cases w with
    | nil => exact absurd rfl hwne
    | cons x xs => exact ⟨x, xs, rfl⟩
  simp only [dottedAux]
  rw [takeWhile_append_all hw, hrw, List.append_nil]
  simp only [List.isEmpty_cons, Bool.false_eq_true, if_false]
  rw [dropWhile_append_all hw, dropWhile_eq_self_of_takeWhile_nil hrw,
    dottedAux_not_dot hrest]
  simp

/-- The except matcher consumes the whole line `except <w0>.<w1>, <n>:`
for a dotted exception name, producing `except <w0>.<w1> as <n>:`. -/
theorem m_except_match_dotted (w0 w1 n : List Char)
    (hw0 : w0.all wordChar = true) (hw0ne : w0 ≠ [])
    (hw1 : w1.all wordChar = true) (hw1ne : w1 ≠ [])
    (hn : n.all wordChar = true) (hnne : n ≠ []) :
    m_except none
        ("except ".data ++ ((w0 ++ ('.' :: w1)) ++ (", ".data ++ (n ++ [':'])))) =
      some (("except ".data ++
          ((w0 ++ ('.' :: w1)) ++ (", ".data ++ (n ++ [':'])))).length,
        "except ".data ++ ((w0 ++ ('.' :: w1)) ++ (" as ".data ++ (n ++ [':'])))) := by
  obtain ⟨b, w0', rfl⟩ : ∃ b w0', w0 = b :: w0' := by
    cases w0 with
    | nil => exact absurd rfl hw0ne
    | cons x xs => exact ⟨x, xs, rfl⟩
  obtain ⟨c1, w1', rfl⟩ : ∃ c1 w1', w1 = c1 :: w1' := by
    cases w1 with
    | nil => exact absurd rfl hw1ne
    | cons x xs => exact ⟨x, xs, rfl⟩
  obtain ⟨d, n', rfl⟩ : ∃ d n', n = d :: n' := by
    cases n with
    | nil => exact absurd rfl hnne
    | cons x xs => exact ⟨x, xs, rfl⟩
  have hw0w : ∀ c ∈ b :: w0', wordChar c = true := List.all_eq_true.mp hw0
  have hw1w : ∀ c ∈ c1 :: w1', wordChar c = true := List.all_eq_true.mp hw1
  have hnw : ∀ c ∈ d :: n', wordChar c = true := List.all_eq_true.mp hn
  have hbws : pySpace b = false := pySpace_false_of_wordChar (hw0w b (by simp))
  have hdws : pySpace d = false := pySpace_false_of_wordChar (hnw d (by simp))
  have hXtake : List.takeWhile pySpace
      (((b :: w0') ++ ('.' :: (c1 :: w1'))) ++
        ([',', ' '] ++ ((d :: n') ++ [':']))) = [] := by
    rw [List.append_assoc, List.cons_append, List.takeWhile_cons,
      if_neg (by simp [hbws])]
  have hA_t : List.takeWhile pySpace
      (' ' :: (((b :: w0') ++ ('.' :: (c1 :: w1'))) ++
        ([',', ' '] ++ ((d :: n') ++ [':'])))) = [' '] := by
    rw [List.takeWhile_cons, if_pos (show pySpace ' ' = true by decide), hXtake]
  have hA_d : List.dropWhile pySpace
      (' ' :: (((b :: w0') ++ ('.' :: (c1 :: w1'))) ++
        ([',', ' '] ++ ((d :: n') ++ [':'])))) =
      ((b :: w0') ++ ('.' :: (c1 :: w1'))) ++
        ([',', ' '] ++ ((d :: n') ++ [':'])) := by
    rw [List.dropWhile_cons, if_pos (show pySpace ' ' = true by decide)]
    exact dropWhile_eq_self_of_takeWhile_nil hXtake
  have hDotTake : List.takeWhile wordChar
      (('.' :: (c1 :: w1')) ++ ([',', ' '] ++ ((d :: n') ++ [':']))) = [] := by
    rw [List.cons_append, List.takeWhile_cons, if_neg (by decide)]
  have hB_t : List.takeWhile wordChar
      (((b :: w0') ++ ('.' :: (c1 :: w1'))) ++
        ([',', ' '] ++ ((d :: n') ++ [':']))) = b :: w0' := by
    rw [List.append_assoc, takeWhile_append_all hw0w, hDotTake, List.append_nil]
  have hB_d : List.dropWhile wordChar
      (((b :: w0') ++ ('.' :: (c1 :: w1'))) ++
        ([',', ' '] ++ ((d :: n') ++ [':']))) =
      '.' :: ((c1 :: w1') ++ ([',', ' '] ++ ((d :: n') ++ [':']))) := by
    rw [List.append_assoc, dropWhile_append_all hw0w, List.cons_append,
      List.dropWhile_cons, if_neg (by decide)]
  have hComma_t : List.takeWhile wordChar
      ([',', ' '] ++ ((d :: n') ++ [':'])) = [] := by
    rw [List.cons_append, List.takeWhile_cons, if_neg (by decide)]
  have hDot : dottedAux
      ('.' :: ((c1 :: w1') ++ ([',', ' '] ++ ((d :: n') ++ [':'])))).length
      ('.' :: ((c1 :: w1') ++ ([',', ' '] ++ ((d :: n') ++ [':'])))) =
      ('.' :: (c1 :: w1'), [',', ' '] ++ ((d :: n') ++ [':'])) := by
    rw [show ('.' :: ((c1 :: w1') ++ ([',', ' '] ++ ((d :: n') ++ [':'])))).length =
      Nat.succ ((c1 :: w1') ++ ([',', ' '] ++ ((d :: n') ++ [':']))).length from rfl]
    exact dottedAux_one_dot (c1 :: w1') _ _ hw1w (by simp)
      (by rw [List.cons_append]; simp) hComma_t
  have hC_t : List.takeWhile pySpace ([',', ' '] ++ ((d :: n') ++ [':'])) = [] := by
    rw [List.cons_append, List.takeWhile_cons, if_neg (by decide)]
  have hC_d : List.dropWhile pySpace ([',', ' '] ++ ((d :: n') ++ [':'])) =
      ',' :: (' ' :: ((d :: n') ++ [':'])) := by
    rw [List.cons_append, List.dropWhile_cons, if_neg (by decide)]
    simp
  have hD_t : List.takeWhile pySpace (' ' :: ((d :: n') ++ [':'])) = [' '] := by
    rw [List.takeWhile_cons, if_pos (show pySpace ' ' = true by decide),
      List.cons_append, List.takeWhile_cons, if_neg (by simp [hdws])]
  have hD_d : List.dropWhile pySpace (' ' :: ((d :: n') ++ [':'])) =
      (d :: n') ++ [':'] := by
    rw [List.dropWhile_cons, if_pos (show pySpace ' ' = true by decide)]
    exact dropWhile_eq_self_of_takeWhile_nil
      (by rw [List.cons_append, List.takeWhile_cons, if_neg (by simp [hdws])])
  have hE_t : List.takeWhile wordChar ((d :: n') ++ [':']) = d :: n' := by
    rw [takeWhile_append_all hnw,
      show List.takeWhile wordChar ([':'] : List Char) = [] from by decide,
      List.append_nil]
  have hE_d : List.dropWhile wordChar ((d :: n') ++ [':']) = [':'] := by
    rw [dropWhile_append_all hnw]
    decide
  have hF_t : List.takeWhile pySpace ([':'] : List Char) = [] := by decide
  have hF_d : List.dropWhile pySpace ([':'] : List Char) = [':'] := by decide
  have e1 : ("except ".data : List Char) ++
      (((b :: w0') ++ ('.' :: (c1 :: w1'))) ++ (", ".data ++ (d :: n' ++ [':']))) =
      "except".data ++ (' ' :: (((b :: w0') ++ ('.' :: (c1 :: w1'))) ++
        (", ".data ++ (d :: n' ++ [':'])))) := rfl
  simp only [m_except, e1, expect_append]
  simp only [hA_t, hA_d, hB_t, hB_d, hDot, hC_t, hC_d, hD_t, hD_d, hE_t, hE_d,
    hF_t, hF_d, List.isEmpty_cons, Bool.false_eq_true, if_false]
  simp only [Option.some.injEq, Prod.mk.injEq]
  constructor
  · simp [List.length_append]
    omega
  · simp [List.append_assoc]

/-- C8: `except <E>, <name>:` is rewritten to `except <E> as <name>:`,
universally for `<E>` a plain identifier or a dotted two-component name
and `<name>` an identifier (under decidable side conditions ruling out
the unrelated long-literal and basestring rules firing on the chosen
identifiers), and concretely on the specification's two examples. -/
theorem except_comma_rewrite :
    (∀ w0 n : List Char, w0.all wordChar = true → w0 ≠ [] →
      n.all wordChar = true → n ≠ [] →
      noMatch m_long none
        ("except ".data ++ (w0 ++ (" as ".data ++ (n ++ [':'])))) = true →
      noMatch m_basestring none
        ("except ".data ++ (w0 ++ (" as ".data ++ (n ++ [':'])))) = true →
      convertChars ("except ".data ++ (w0 ++ (", ".data ++ (n ++ [':'])))) =
        "except ".data ++ (w0 ++ (" as ".data ++ (n ++ [':'])))) ∧
    (∀ w0 w1 n : List Char, w0.all wordChar = true → w0 ≠ [] →
      w1.all wordChar = true → w1 ≠ [] →
      n.all wordChar = true → n ≠ [] →
      noMatch m_long none ("except ".data ++
        ((w0 ++ ('.' :: w1)) ++ (" as ".data ++ (n ++ [':'])))) = true →
      noMatch m_basestring none ("except ".data ++
        ((w0 ++ ('.' :: w1)) ++ (" as ".data ++ (n ++ [':'])))) = true →
      convertChars ("except ".data ++
          ((w0 ++ ('.' :: w1)) ++ (", ".data ++ (n ++ [':'])))) =
        "except ".data ++ ((w0 ++ ('.' :: w1)) ++ (" as ".data ++ (n ++ [':'])))) ∧
    (convert_code "except ValueError, e:" = "except ValueError as e:") ∧
    (convert_code "except socket.error, e:" = "except socket.error as e:") := by
  refine ⟨?_, ?_, by decide, by decide⟩
  · intro w0 n hw0 hw0ne hn hnne hlong hbase
    exact except_line_pipeline w0 n
      (fun c hc => Or.inl (List.all_eq_true.mp hw0 c hc)) hn
      (m_except_match_plain w0 n hw0 hw0ne hn hnne) hlong hbase
  · intro w0 w1 n hw0 hw0ne hw1 hw1ne hn hnne hlong hbase
    refine except_line_pipeline (w0 ++ ('.' :: w1)) n ?_ hn
      (m_except_match_dotted w0 w1 n hw0 hw0ne hw1 hw1ne hn hnne) hlong hbase
    intro c hc
    rcases List.mem_append.mp hc with h | h
    · exact Or.inl (List.all_eq_true.mp hw0 c h)
    · rcases List.mem_cons.mp h with rfl | h
      · exact Or.inr rfl
      · exact Or.inl (List.all_eq_true.mp hw1 c h)

/-- C8 witness: the dotted universal case applied to
`except socket.error, e:`. -/
theorem except_comma_rewrite_witness :
    convertChars ("except ".data ++ (("socket".data ++ ('.' :: "error".data)) ++
        (", ".data ++ ("e".data ++ [':'])))) =
      "except ".data ++ (("socket".data ++ ('.' :: "error".data)) ++
        (" as ".data ++ ("e".data ++ [':']))) :=
  except_comma_rewrite.2.1 ("socket".data) ("error".data) ("e".data)
    (by decide) (by decide) (by decide) (by decide) (by decide) (by decide)
    (by decide) (by decide)

end Py2To3
